import Mathlib

/-!
Verification of the streamlink segmented-stream engine against its
specification.  The definitions below are shallow embeddings of the Python
sources under `src/streamlink/stream/` (`segmented.py`, `hls.py`, `dash.py`):
pure fragments become Lean functions, mutation of `self` becomes explicit
state passing, Python floats become `Rat`, byte strings become `List Nat`,
and raised exceptions become `Except` values.  External collaborators whose
code is not part of the repository snapshot (the AES block cipher from
pycryptodome, the `Formatter` helper, the `RingBuffer`) are abstracted as
function parameters or, where the specification pins their behaviour down,
modelled from the specification (marked in the doc comment).
-/

namespace Streamlink

/-! ### Bytes and integer encodings -/

/-- Big-endian base-256 encoding of `n` into exactly `k` bytes
(the low `8*k` bits of `n`). -/
def beBytes : Nat → Nat → List Nat
  | 0, _ => []
  | k + 1, n => beBytes k (n / 256) ++ [n % 256]

/-- Embeds `HLSStreamWriter.num_to_iv` (hls.py line 44):
`struct.pack(">8xq", n)` produces 8 zero pad bytes followed by the 8-byte
big-endian two's-complement encoding of `n`; `struct.error` is raised (here:
`none`) when `n` is outside the signed 64-bit range. -/
def num_to_iv (n : Int) : Option (List Nat) :=
  if -(2 ^ 63) ≤ n ∧ n < 2 ^ 63 then
    some (List.replicate 8 0 ++ beBytes 8 (n.emod (2 ^ 64)).toNat)
  else
    none

/-! ### HLS data model (playlist entries as consumed by hls.py) -/

/-- A `#EXT-X-BYTERANGE` value: a length and an optional absolute offset. -/
structure HLSByteRange where
  range : Int
  offset : Option Int
deriving DecidableEq

/-- A `#EXT-X-KEY` value as used by `HLSStreamWriter`. -/
structure HLSKey where
  method : String
  uri : Option String
  iv : Option (List Nat)
deriving DecidableEq

/-- A media segment as used by `HLSStreamWriter` and `HLSStreamWorker`. -/
structure HLSSegment where
  uri : String
  duration : Rat
  key : Option HLSKey
  byterange : Option HLSByteRange
deriving DecidableEq

/-- Embeds `Sequence = namedtuple("Sequence", "num segment")` (hls.py line 18). -/
structure Sequence where
  num : Int
  segment : HLSSegment
deriving DecidableEq

/-! ### HLS writer state (mutable attributes of `HLSStreamWriter`) -/

/-- The mutable state of an `HLSStreamWriter` instance, together with the
parts of the shared pipeline it mutates (the reader's buffer, the executor).
Buffer bytes are the concatenation of all committed chunks. -/
structure HLSWriterState where
  closed : Bool
  bufferClosed : Bool
  executorShutdown : Bool
  waitSet : Bool
  buffer : List Nat
  byterange_offsets : String → Int
  key_data : List Nat
  key_uri : Option String
  key_uri_override : Option String

/-- A fresh writer state: nothing closed, empty buffer, all byte-range
offsets zero (`defaultdict(int)`), no cached key, no key-URI override. -/
def writer_st0 : HLSWriterState :=
  ⟨false, false, false, false, [], fun _ => 0, [], none, none⟩

/-- Embeds `SegmentedStreamWriter.close` (segmented.py lines 126-134):
sets the closed flag, closes the reader's buffer, shuts the executor down
and sets the wait event. -/
def writerClose (st : HLSWriterState) : HLSWriterState :=
  { st with closed := true, bufferClosed := true, executorShutdown := true, waitSet := true }

/-- Modelled from the spec: `RingBuffer.write` (streamlink/buffers.py is not
part of the source snapshot) — "once closed, `write` is a no-op", otherwise
the bytes are appended. -/
def buffer_write (st : HLSWriterState) (b : List Nat) : HLSWriterState :=
  if st.bufferClosed then st else { st with buffer := st.buffer ++ b }

/-! ### Decryptor creation (hls.py lines 41-79) -/

/-- The exception kinds that can escape the decryption helpers:
`streamError` (`StreamError`), `valueError` (`ValueError`), and
`structError` (`struct.error` from `num_to_iv`, which `write` does not
catch). -/
inductive DecryptorError
  | streamError
  | valueError
  | structError
deriving DecidableEq

/-- The data determining an AES-128-CBC decryptor: key material and IV. -/
structure Decryptor where
  key : List Nat
  iv : List Nat
deriving DecidableEq

/-- The IV computation and padding of `create_decryptor` (hls.py lines
74-79): `iv = key.iv or self.num_to_iv(sequence)` (an empty explicit IV is
falsy and falls back to the derived one), then left-pad with zero bytes to
16 (a negative pad count in Python yields the empty byte string, matching
truncated `Nat` subtraction). -/
def mkDecryptor (st : HLSWriterState) (key : HLSKey) (sequence : Int) :
    Except DecryptorError Decryptor :=
  let iv0 : Option (List Nat) :=
    match key.iv with
    | some l => if l = [] then num_to_iv sequence else some l
    | none => num_to_iv sequence
  match iv0 with
  | none => Except.error DecryptorError.structError
  | some l => Except.ok ⟨st.key_data, List.replicate (16 - l.length) 0 ++ l⟩

/-- The key URI resolution of `create_decryptor` (hls.py lines 53-64):
`formatOverride` abstracts the `Formatter` substitution applied to
`hls-segment-key-uri` (streamlink/utils/formatter.py is not part of the
source snapshot); without an override the key's own URI is used. -/
def resolved_key_uri (formatOverride : String → Option String → String)
    (st : HLSWriterState) (key : HLSKey) : String :=
  match st.key_uri_override with
  | some ovr => formatOverride ovr key.uri
  | none => key.uri.getD ""

/-- Embeds `HLSStreamWriter.create_decryptor` (hls.py lines 46-79): method
check, missing-URI check, key fetch on cache miss (`fetchKey` abstracts
`session.http.get` on the key URI and returns `none` when the fetch raises
`StreamError`), then IV derivation via `mkDecryptor`.  Returns the state
after any key-cache update together with the decryptor or the raised
exception. -/
def create_decryptor (formatOverride : String → Option String → String)
    (fetchKey : String → Option (List Nat))
    (st : HLSWriterState) (key : HLSKey) (sequence : Int) :
    HLSWriterState × Except DecryptorError Decryptor :=
  if key.method ≠ "AES-128" then
    (st, Except.error DecryptorError.streamError)
  else if st.key_uri_override = none ∧ key.uri = none then
    (st, Except.error DecryptorError.streamError)
  else
    let keyUri : String := resolved_key_uri formatOverride st key
    if st.key_uri ≠ some keyUri then
      match fetchKey keyUri with
      | none => (st, Except.error DecryptorError.streamError)
      | some kd =>
        let st2 := { st with key_data := kd, key_uri := some keyUri }
        (st2, mkDecryptor st2 key sequence)
    else
      (st, mkDecryptor st key sequence)

/-! ### CBC decryption and PKCS#7 unpadding -/

/-- Byte-wise xor of two byte strings. -/
def xorBytes (a b : List Nat) : List Nat :=
  List.zipWith (fun x y => Nat.xor x y % 256) a b

/-- CBC-mode chaining over an abstract block decryption function (the AES
core itself is external pycryptodome code): each 16-byte ciphertext block
is block-decrypted and xor-ed with the previous ciphertext block (the IV
for the first block). -/
def cbcChain (blockDec : List Nat → List Nat) (prev data : List Nat) : List Nat :=
  if h : data = [] then []
  else
    let blk := data.take 16
    xorBytes (blockDec blk) prev ++ cbcChain blockDec blk (data.drop 16)
termination_by data.length
decreasing_by
  simp only [List.length_drop]
  exact Nat.sub_lt (List.length_pos.mpr h) (by norm_num)

/-- Modelled from the spec: PKCS#7 padding removal with block size 16
("padding removal uses PKCS#7"; the `unpad` helper lives in
streamlink/utils/crypto.py which is not part of the source snapshot).
Invalid padding raises `ValueError`. -/
def unpad_pkcs7 (data : List Nat) : Except DecryptorError (List Nat) :=
  match data.getLast? with
  | none => Except.error DecryptorError.valueError
  | some p =>
    if p = 0 ∨ 16 < p ∨ data.length < p then
      Except.error DecryptorError.valueError
    else if (data.drop (data.length - p)).all (fun b => b = p) then
      Except.ok (data.take (data.length - p))
    else
      Except.error DecryptorError.valueError

/-- The decrypt-then-unpad step of `HLSStreamWriter.write` (hls.py lines
135-137): `decryptor.decrypt` raises `ValueError` when the ciphertext is
not a whole number of 16-byte blocks, then `unpad(…, style="pkcs7")`. -/
def decrypt_and_unpad (blockDec : List Nat → List Nat → List Nat)
    (d : Decryptor) (data : List Nat) : Except DecryptorError (List Nat) :=
  if data.length % 16 ≠ 0 then Except.error DecryptorError.valueError
  else unpad_pkcs7 (cbcChain (blockDec d.key) d.iv data)

/-! ### `HLSStreamWriter.write` (hls.py lines 120-153) -/

/-- Embeds `HLSStreamWriter.write`.  `content` is the outcome of reading
`result.content` (`Except.error` when a transport error is raised while the
body is read), `chunks` are the chunks delivered by `result.iter_content`
before any transport error on the plaintext path.  The returned value is
`Except.error e` only for an exception that `write` does not catch
(`struct.error`). -/
def hls_write (formatOverride : String → Option String → String)
    (fetchKey : String → Option (List Nat))
    (blockDec : List Nat → List Nat → List Nat)
    (st : HLSWriterState) (seq : Sequence)
    (content : Except Unit (List Nat)) (chunks : List (List Nat)) :
    Except DecryptorError HLSWriterState :=
  match seq.segment.key with
  | some key =>
    if key.method ≠ "NONE" then
      match create_decryptor formatOverride fetchKey st key seq.num with
      | (_, Except.error DecryptorError.structError) =>
        Except.error DecryptorError.structError
      | (st2, Except.error _) =>
        -- log.error("Failed to create decryptor: …"); self.close(); return
        Except.ok (writerClose st2)
      | (st2, Except.ok d) =>
        match content with
        | Except.error _ =>
          -- transport error while reading the body: log.error(…); return
          Except.ok st2
        | Except.ok data =>
          match decrypt_and_unpad blockDec d data with
          | Except.error _ =>
            -- log.error("Error while decrypting segment …"); return
            Except.ok st2
          | Except.ok chunk => Except.ok (buffer_write st2 chunk)
    else
      Except.ok (chunks.foldl buffer_write st)
  | none =>
    Except.ok (chunks.foldl buffer_write st)

/-! ### `HLSStreamWriter.create_request_params` (hls.py lines 81-97) -/

/-- Embeds the byte-range bookkeeping of
`HLSStreamWriter.create_request_params`: the produced `Range` header is
`bytes=start-end` (returned here as the pair `(start, end)`), and the
per-URI running offset (`self.byterange_offsets`, a `defaultdict(int)`) is
advanced to `end + 1`. -/
def create_request_params (st : HLSWriterState) (seq : Sequence) :
    HLSWriterState × Option (Int × Int) :=
  match seq.segment.byterange with
  | none => (st, none)
  | some br =>
    let bytesStart : Int :=
      match br.offset with
      | some o => o
      | none => st.byterange_offsets seq.segment.uri
    let bytesLen := max (br.range - 1) 0
    let bytesEnd := bytesStart + bytesLen
    ({ st with byterange_offsets :=
        fun x => if x = seq.segment.uri then bytesEnd + 1 else st.byterange_offsets x },
     some (bytesStart, bytesEnd))

/-- Runs `create_request_params` over a list of segment requests, returning
the `Range` pair produced for each. -/
def run_request_params (st : HLSWriterState) : List Sequence → List (Option (Int × Int))
  | [] => []
  | s :: rest =>
    let r := create_request_params st s
    r.2 :: run_request_params r.1 rest

/-! ### HLS worker state machine (hls.py lines 156-320) -/

/-- Python truthiness of an optional number (`None` and `0` are falsy). -/
def optRatTruthy : Option Rat → Bool
  | none => false
  | some t => decide (t ≠ 0)

/-- The normalised `hls-playlist-reload-time` option (hls.py lines 174-177):
a float (kept only when ≥ 2), the string "segment", the string "live-edge",
or the falsy default `0`. -/
inductive ReloadTimeOverride
  | default
  | bySegment
  | byLiveEdge
  | fixed (t : Rat)
deriving DecidableEq

/-- The mutable attributes of an `HLSStreamWorker` instance that drive
segment production (hls.py lines 161-172). -/
structure HLSWorkerState where
  closed : Bool
  playlist_changed : Bool
  playlist_end : Option Int
  playlist_sequence : Int
  playlist_sequences : List Sequence
  playlist_reload_time : Rat
  playlist_reload_time_override : ReloadTimeOverride
  live_edge : Int
  hls_live_restart : Bool
  duration_limit : Option Rat
deriving DecidableEq

/-- The worker state as left by `HLSStreamWorker.__init__` just before the
constructor's initial `reload_playlist()` call: not closed, no window seen,
cursor `-1`, reload time `6`. -/
def init_worker_state (live_edge : Int) (restart : Bool)
    (ovr : ReloadTimeOverride) (duration_limit : Option Rat) : HLSWorkerState :=
  ⟨false, false, none, -1, [], 6, ovr, live_edge, restart, duration_limit⟩

/-- Embeds `sum([s.segment.duration for s in sequences[-max(1, live_edge - 1):]])`
(hls.py lines 247 and 253). -/
def live_edge_window_sum (live_edge : Int) (sequences : List Sequence) : Rat :=
  ((sequences.drop (sequences.length - (max 1 (live_edge - 1)).toNat)).map
    (fun s => s.segment.duration)).sum

/-- The `type(override) is float and override > 0` test of hls.py line 248. -/
def fixed_positive : ReloadTimeOverride → Option Rat
  | ReloadTimeOverride.fixed t => if 0 < t then some t else none
  | _ => none

/-- Embeds `HLSStreamWorker._playlist_reload_time` (hls.py lines 243-255):
the sequential fallback chain override-by-segment / override-by-live-edge /
fixed override / declared target duration / trailing live-edge window sum /
previous reload time. -/
def playlist_reload_time_calc (ovr : ReloadTimeOverride) (live_edge : Int)
    (prev : Rat) (target_duration : Option Rat) (sequences : List Sequence) : Rat :=
  if ovr = ReloadTimeOverride.bySegment ∧ sequences ≠ [] then
    ((sequences.getLast?).map (fun s => s.segment.duration)).getD prev
  else if ovr = ReloadTimeOverride.byLiveEdge ∧ sequences ≠ [] then
    live_edge_window_sum live_edge sequences
  else
    match fixed_positive ovr with
    | some t => t
    | none =>
      if optRatTruthy target_duration then target_duration.getD 0
      else if sequences ≠ [] then live_edge_window_sum live_edge sequences
      else prev

/-- Embeds `HLSStreamWorker.process_sequences` (hls.py lines 257-278):
detect whether the window advanced by comparing the full lists of sequence
numbers, halve the reload interval (floor 1) when it did not, record the end
sequence of an ended playlist, and pick the starting sequence (live edge or
first) when the cursor is still unset.  The caller guarantees `sequences`
is nonempty (`reload_playlist` only calls it under `if sequences:`). -/
def process_sequences (st : HLSWorkerState) (is_endlist : Bool)
    (sequences : List Sequence) : HLSWorkerState :=
  let playlist_changed : Bool :=
    decide ((st.playlist_sequences.map Sequence.num) ≠ (sequences.map Sequence.num))
  let new_reload_time : Rat :=
    if playlist_changed then st.playlist_reload_time
    else max (st.playlist_reload_time / 2) 1
  let new_end : Option Int :=
    if is_endlist then
      match sequences.getLast? with
      | some sLast => some sLast.num
      | none => st.playlist_end
    else st.playlist_end
  let new_sequence : Int :=
    if st.playlist_sequence < 0 then
      if new_end = none ∧ st.hls_live_restart = false then
        let edge_index := min sequences.length (max st.live_edge 1).toNat
        match (sequences.drop (sequences.length - edge_index)).head? with
        | some edge_sequence => edge_sequence.num
        | none => st.playlist_sequence
      else
        match sequences.head? with
        | some first_sequence => first_sequence.num
        | none => st.playlist_sequence
    else st.playlist_sequence
  { st with playlist_changed := playlist_changed,
            playlist_sequences := sequences,
            playlist_reload_time := new_reload_time,
            playlist_end := new_end,
            playlist_sequence := new_sequence }

/-- The fields of a parsed media playlist consumed by `reload_playlist`
(the playlist text parser itself lives in hls_playlist.py). -/
structure HLSPlaylist where
  is_endlist : Bool
  target_duration : Option Rat
  media_sequence : Option Int
  segments : List HLSSegment
deriving DecidableEq

/-- Embeds `sequences = [Sequence(media_sequence + i, s) for i, s in
enumerate(playlist.segments)]` with `media_sequence = playlist.media_sequence
or 0` (hls.py lines 234-236). -/
def sequences_of (p : HLSPlaylist) : List Sequence :=
  p.segments.enum.map (fun is => ⟨(p.media_sequence.getD 0) + (is.1 : Int), is.2⟩)

/-- Embeds the state update of `HLSStreamWorker.reload_playlist` (hls.py
lines 213-241) on a successfully fetched and parsed media playlist: the
reload interval is recomputed first, then the sequences are processed when
the window is nonempty. -/
def reload_step (st : HLSWorkerState) (p : HLSPlaylist) : HLSWorkerState :=
  let sequences := sequences_of p
  let newTime := playlist_reload_time_calc st.playlist_reload_time_override
    st.live_edge st.playlist_reload_time p.target_duration sequences
  let st1 := { st with playlist_reload_time := newTime }
  if sequences ≠ [] then process_sequences st1 p.is_endlist sequences else st1

/-- The outcome of one pass of the `for sequence in filter(...)` loop body
of `iter_segments`: the numbers yielded, the cursor and cumulative duration
afterwards, and whether the generator returned (end of stream). -/
structure EmitResult where
  out : List Int
  playlist_sequence : Int
  total_duration : Rat
  ended : Bool
deriving DecidableEq

/-- Embeds `stream_end = self.playlist_end and sequence.num >= self.playlist_end`
(hls.py line 310), with Python truthiness: a `playlist_end` of `None` or
`0` is falsy. -/
def stream_end_check (playlist_end : Option Int) (num : Int) : Bool :=
  match playlist_end with
  | some e => decide (e ≠ 0 ∧ e ≤ num)
  | none => false

/-- Embeds the inner loop of `HLSStreamWorker.iter_segments` (hls.py lines
301-314) with `closed = False`: `filter(self.valid_sequence, …)` is a lazy
filter re-evaluated against the advancing `playlist_sequence` cursor; a
yielded sequence triggers the duration-limit check, then the end-of-stream
check (`self.playlist_end and sequence.num >= self.playlist_end`, with
Python truthiness on `playlist_end`), and only a non-terminal yield
advances the cursor to `num + 1`. -/
def emit_window (duration_limit : Option Rat) (playlist_end : Option Int) :
    List Sequence → Int → Rat → EmitResult
  | [], ps, td => ⟨[], ps, td, false⟩
  | s :: rest, ps, td =>
    if ps ≤ s.num then
      let td2 := td + s.segment.duration
      if optRatTruthy duration_limit ∧ duration_limit.getD 0 ≤ td2 then
        ⟨[s.num], ps, td2, true⟩
      else if stream_end_check playlist_end s.num then
        ⟨[s.num], ps, td2, true⟩
      else
        let r := emit_window duration_limit playlist_end rest (s.num + 1) td2
        ⟨s.num :: r.out, r.playlist_sequence, r.total_duration, r.ended⟩
    else
      emit_window duration_limit playlist_end rest ps td

/-- Embeds `HLSStreamWorker.iter_segments` (hls.py lines 298-320) with
`closed = False`: repeatedly emit the valid suffix of the current window,
stop when the generator returned, and otherwise wait and reload with the
next playlist outcome; `reloads` lists the successive reload results (the
run stops when no further reload outcome is supplied).  Returns the yielded
sequence numbers and whether end of stream was reached. -/
def iter_segments_run (st : HLSWorkerState) (td : Rat) (reloads : List HLSPlaylist) :
    List Int × Bool :=
  let r := emit_window st.duration_limit st.playlist_end st.playlist_sequences
    st.playlist_sequence td
  if r.ended then (r.out, true)
  else
    match reloads with
    | [] => (r.out, false)
    | p :: rest =>
      let st2 := reload_step { st with playlist_sequence := r.playlist_sequence } p
      let rec2 := iter_segments_run st2 r.total_duration rest
      (r.out ++ rec2.1, rec2.2)

/-! ### Generic writer ordering loop (segmented.py lines 172-196) -/

/-- Embeds the ordering loop of `SegmentedStreamWriter.run` as a clocked
simulation: the queue holds the futures of segments `0, …, n-1` in
submission (FIFO) order, future `i` completes at time `ct i`, and the loop
blocks on the future at the head of the queue — re-polling with a timeout
(one clock tick) — before committing it and moving to the next.  `fuel`
bounds the number of loop iterations. -/
def writer_run_loop (n : Nat) (ct : Nat → Nat) : Nat → Nat → Nat → List Nat
  | 0, _, _ => []
  | fuel + 1, i, t =>
    if n ≤ i then []
    else if ct i ≤ t then i :: writer_run_loop n ct fuel (i + 1) t
    else writer_run_loop n ct fuel i (t + 1)

/-- An upper bound on all completion times of the `n` queued futures. -/
def max_ct : Nat → (Nat → Nat) → Nat
  | 0, _ => 0
  | n + 1, ct => max (max_ct n ct) (ct n)

/-- The commit order of the writer run loop, given enough fuel for every
future to complete: the indices, in the order their results are written. -/
def writer_commits (n : Nat) (ct : Nat → Nat) : List Nat :=
  writer_run_loop n ct (n + max_ct n ct) 0 0

/-! ### DASH worker (dash.py lines 96-130) -/

/-- Embeds the manifest reload interval computation of
`DASHStreamWorker.iter_segments` (dash.py lines 103-109): 5 seconds for a
static manifest, otherwise `max(minimumUpdatePeriod, periods[0].duration)
or 5` — Python's `or` replaces the value by 5 only when it is falsy
(zero). -/
def refresh_wait (mpdType : String) (minimumUpdatePeriod periodDuration : Rat) : Rat :=
  if mpdType = "static" then 5
  else
    let m := max minimumUpdatePeriod periodDuration
    if m = 0 then 5 else m

/-- Embeds the back-off update of `DASHStreamWorker.iter_segments` (dash.py
lines 125-128): `back_off_factor = max(back_off_factor * 1.3, 10.0)` after
a reload that reported no change, and `1` after a reload that did. -/
def back_off_update (changed : Bool) (f : Rat) : Rat :=
  if changed then 1 else max (f * (13 / 10)) 10

/-- The argument of `self.sleeper(refresh_wait * back_off_factor)` (dash.py
line 111). -/
def sleep_duration (w f : Rat) : Rat := w * f

/-! ### Pipeline close (segmented.py lines 68-75, 126-134, 222-231) -/

/-- The externally observable state touched by the close path of the
pipeline: the two thread flags and wait events, the buffer, and the
executor. -/
structure PipelineState where
  workerClosed : Bool
  workerWait : Bool
  writerClosed : Bool
  writerWait : Bool
  bufferClosed : Bool
  executorShutdown : Bool
  bufferData : List Nat
deriving DecidableEq

/-- Embeds `SegmentedStreamWorker.close` (segmented.py lines 68-75). -/
def worker_close (st : PipelineState) : PipelineState :=
  { st with workerClosed := true, workerWait := true }

/-- Modelled from the spec: `RingBuffer.close` (streamlink/buffers.py is
not part of the source snapshot) — "close is idempotent and terminal": it
only sets the closed flag and never touches the buffered bytes. -/
def ring_buffer_close (st : PipelineState) : PipelineState :=
  { st with bufferClosed := true }

/-- Embeds `SegmentedStreamWriter.close` (segmented.py lines 126-134):
flag, buffer close, executor shutdown, wait event. -/
def writer_close (st : PipelineState) : PipelineState :=
  ring_buffer_close { st with writerClosed := true, executorShutdown := true,
                              writerWait := true }

/-- Embeds `SegmentedStreamReader.close` (segmented.py lines 222-231):
close the worker, close the writer, close the buffer, then join both
threads (joining does not mutate the observable state). -/
def reader_close (st : PipelineState) : PipelineState :=
  ring_buffer_close (writer_close (worker_close st))

/-! ### Concrete fixtures used by witnesses and counterexamples -/

/-- A plain two-second media segment with the given URI. -/
def segX (u : String) : HLSSegment := ⟨u, 2, none, none⟩

/-- A live playlist (no end tag) with sequence numbers 0 through 9. -/
def pl09 : HLSPlaylist :=
  ⟨false, some 6, some 0, (List.range 10).map (fun i => segX (toString i))⟩

/-- A live playlist window holding sequence numbers 0 and 1. -/
def livePl01 : HLSPlaylist := ⟨false, some 6, some 0, [segX "s0", segX "s1"]⟩

/-- The reloaded, ended playlist window holding sequence numbers 1 and 2. -/
def endPl12 : HLSPlaylist := ⟨true, some 6, some 1, [segX "s1", segX "s2"]⟩

/-- A worker state that has already seen window `[0, 1]` with the cursor at
0 and a 6-second reload interval. -/
def c4st : HLSWorkerState :=
  ⟨false, false, none, 0, [⟨0, segX "a"⟩, ⟨1, segX "b"⟩], 6,
   ReloadTimeOverride.default, 3, false, none⟩

/-- A reload result whose window is `[1]`: the highest sequence number is
unchanged (still 1) but the full number list differs from `[0, 1]`. -/
def c4pl : HLSPlaylist := ⟨false, some 6, some 1, [segX "b"]⟩

/-- Segment requests on one URI whose byte-ranges carry only a length. -/
def mk_relative_requests (u : String) (Ls : List Int) : List Sequence :=
  Ls.map (fun L => ⟨0, ⟨u, 2, none, some ⟨L, none⟩⟩⟩)

/-- The closed form of the ranges produced for consecutive relative
byte-ranges on one URI: each request spans `max (L - 1) 0` additional bytes
from the running offset, and the offset then advances to one past its
end. -/
def relative_ranges (off : Int) : List Int → List (Int × Int)
  | [] => []
  | L :: rest =>
    (off, off + max (L - 1) 0) :: relative_ranges (off + max (L - 1) 0 + 1) rest

/-- An AES-128 key whose URI is missing (no `URI` attribute and no
`hls-segment-key-uri` override): `create_decryptor` raises `StreamError`. -/
def cexKey : HLSKey := ⟨"AES-128", none, none⟩

/-- An encrypted segment carrying `cexKey`. -/
def cexSeq : Sequence := ⟨7, ⟨"seg7", 2, some cexKey, none⟩⟩

/-! ## C3 — DASH manifest reload interval -/

/-- C3 is refuted on the code: for the dynamic manifest with
`minimumUpdatePeriod = 3` and period duration `0`, the computed reload
interval is `3 = max 3 0`, which is less than the 5 seconds the claim says
it can never fall below — `or 5` in dash.py line 109 only replaces a zero
value. -/
theorem c3_counterexample :
    refresh_wait "dynamic" 3 0 = 3 ∧ ¬ (5 : Rat) ≤ refresh_wait "dynamic" 3 0 := by
  have h : refresh_wait "dynamic" 3 0 = 3 := by decide
  refine ⟨h, ?_⟩
  rw [h]
  norm_num

/-- C3 (amended): for a static manifest the reload interval is 5 seconds;
for a dynamic manifest it is `max minimumUpdatePeriod periodDuration`,
except that a zero maximum is replaced by 5 seconds (the floor of 5 applies
only to the zero case, not as a general minimum). -/
theorem c3_amended (mup dur : Rat) :
    refresh_wait "static" mup dur = 5
    ∧ (max mup dur ≠ 0 → refresh_wait "dynamic" mup dur = max mup dur)
    ∧ (max mup dur = 0 → refresh_wait "dynamic" mup dur = 5) := by
  refine ⟨by simp [refresh_wait], ?_, ?_⟩ <;> intro h <;>
    simp [refresh_wait, h]

/-- C3 amended witness at `minimumUpdatePeriod = 3`, period duration 0. -/
theorem c3_amended_witness : refresh_wait "dynamic" 3 0 = max 3 0 :=
  (c3_amended 3 0).2.1 (by rw [max_eq_left (by norm_num : (0 : Rat) ≤ 3)]; norm_num)

/-! ## C10 — DASH back-off factor -/

/-- C10: after a manifest reload that reports no change the back-off
factor becomes `max (factor * 1.3) 10`, which equals exactly 10 for every
factor below `10 / 1.3 = 100/13`; so a single non-advancing reload turns
the next sleep interval into ten times the base interval, and an advancing
reload resets the factor to 1. -/
theorem c10_back_off (f : Rat) (h : f < 100 / 13) :
    back_off_update false f = 10
    ∧ (∀ g : Rat, back_off_update true g = 1)
    ∧ (∀ w : Rat, sleep_duration w (back_off_update false 1) = 10 * sleep_duration w 1) := by
  have hf : f * (13 / 10) ≤ 10 := by linarith
  refine ⟨by simp [back_off_update, max_eq_right hf], fun g => by simp [back_off_update], ?_⟩
  intro w
  have h10 : back_off_update false 1 = 10 := by
    show max ((1 : Rat) * (13 / 10)) 10 = 10
    rw [one_mul]
    exact max_eq_right (by norm_num)
  rw [h10]
  show w * 10 = 10 * (w * 1)
  ring

/-- C10 witness at factor 1 (the initial value) and base interval 7. -/
theorem c10_back_off_witness :
    back_off_update false 1 = 10
    ∧ back_off_update true 5 = 1
    ∧ sleep_duration 7 (back_off_update false 1) = 10 * sleep_duration 7 1 :=
  have h := c10_back_off 1 (by norm_num)
  ⟨h.1, h.2.1 5, h.2.2 7⟩

/-! ## C9 — idempotence of pipeline close -/

/-- C9: closing the pipeline twice (`SegmentedStreamReader.close`, which
closes the worker, the writer, and the buffer, in that order) leaves the
closed flags, the wait events, the executor, and the buffered bytes
exactly as the first close left them, and drops no bytes. -/
theorem c9_close_idempotent (st : PipelineState) :
    reader_close (reader_close st) = reader_close st
    ∧ (reader_close st).bufferData = st.bufferData :=
  ⟨rfl, rfl⟩

/-! ## C5 — HLS live-edge start selection -/

/-- C5: on first load of a live playlist with sequence numbers 0..9,
`live_edge = 3` and live-restart not requested, the starting cursor is 7
(= `sequences[-3]`) and the first yielded sequence number is 7; with
live-restart requested or an ended (non-live) playlist, a first load
starts at the first sequence number of the window. -/
theorem c5_live_edge :
    (reload_step (init_worker_state 3 false ReloadTimeOverride.default none)
      pl09).playlist_sequence = 7
    ∧ (iter_segments_run
        (reload_step (init_worker_state 3 false ReloadTimeOverride.default none) pl09)
        0 []).1.head? = some 7
    ∧ (∀ (st : HLSWorkerState) (e : Bool) (s : Sequence) (rest : List Sequence),
        st.playlist_sequence < 0 → (e = true ∨ st.hls_live_restart = true) →
        (process_sequences st e (s :: rest)).playlist_sequence = s.num) := by
  refine ⟨by decide, by decide, ?_⟩
  intro st e s rest hps hor
  obtain ⟨sl, hsl⟩ : ∃ sl, (s :: rest).getLast? = some sl :=
    ⟨(s :: rest).getLast (by simp), List.getLast?_eq_getLast _ _⟩
  show (if st.playlist_sequence < 0 then _ else _) = s.num
  rw [if_pos hps]
  rcases hor with he | hr
  · subst he
    simp only [if_true, hsl]
    rw [if_neg (by simp)]
    rfl
  · have hne : ∀ (o : Option Int), ¬ (o = none ∧ st.hls_live_restart = false) := by
      intro o hcon
      rw [hr] at hcon
      exact Bool.noConfusion hcon.2
    rw [if_neg (hne _)]
    rfl

/-- C5 witness: the universally quantified branch applied to an ended
playlist window `[4, 5]` with the cursor unset. -/
theorem c5_live_edge_witness :
    (process_sequences (init_worker_state 3 false ReloadTimeOverride.default none)
      true (⟨4, segX "a"⟩ :: [⟨5, segX "b"⟩])).playlist_sequence = 4 :=
  c5_live_edge.2.2 (init_worker_state 3 false ReloadTimeOverride.default none)
    true ⟨4, segX "a"⟩ [⟨5, segX "b"⟩] (by decide) (Or.inl rfl)

/-! ## C4 — HLS non-advancing reload interval -/

/-- C4 is refuted on the code: the reload from window `[0, 1]` to window
`[1]` reports no new highest sequence number (both windows end at 1), yet
the interval after processing is the full computed value 6 — not at most
half the previous interval of 6 — because `process_sequences` compares the
complete lists of sequence numbers, which differ here. -/
theorem c4_counterexample :
    (c4st.playlist_sequences.map Sequence.num).getLast? = some 1
    ∧ ((sequences_of c4pl).map Sequence.num).getLast? = some 1
    ∧ (reload_step c4st c4pl).playlist_reload_time = 6
    ∧ ¬ (reload_step c4st c4pl).playlist_reload_time ≤ c4st.playlist_reload_time / 2 := by
  have h : (reload_step c4st c4pl).playlist_reload_time = 6 := by decide
  refine ⟨by decide, by decide, h, ?_⟩
  rw [h]
  show ¬ (6 : Rat) ≤ 6 / 2
  norm_num

/-- C4 (amended): a reload whose new window carries exactly the same list
of sequence numbers as the previous window sets the interval to
`max (computed / 2) 1` — at most half of the interval computed for that
reload, and never below 1 second — where `computed` is the value of
`_playlist_reload_time` for this reload; a reload whose number list
differs leaves the interval at that computed value. -/
theorem c4_amended (st : HLSWorkerState) (p : HLSPlaylist)
    (hne : sequences_of p ≠ []) :
    (((sequences_of p).map Sequence.num = st.playlist_sequences.map Sequence.num) →
      (reload_step st p).playlist_reload_time =
        max (playlist_reload_time_calc st.playlist_reload_time_override st.live_edge
          st.playlist_reload_time p.target_duration (sequences_of p) / 2) 1
      ∧ 1 ≤ (reload_step st p).playlist_reload_time)
    ∧ (((sequences_of p).map Sequence.num ≠ st.playlist_sequences.map Sequence.num) →
      (reload_step st p).playlist_reload_time =
        playlist_reload_time_calc st.playlist_reload_time_override st.live_edge
          st.playlist_reload_time p.target_duration (sequences_of p)) := by
  constructor
  · intro heq
    unfold reload_step
    rw [if_pos hne]
    have hch : decide ((st.playlist_sequences.map Sequence.num) ≠
        ((sequences_of p).map Sequence.num)) = false := by
      simp [heq]
    constructor
    · show (if decide _ = true then _ else max (_ / 2) 1) = _
      rw [hch]
      simp
    · show (1 : Rat) ≤ (if decide _ = true then _ else max (_ / 2) 1)
      rw [hch]
      simp
  · intro hneq
    unfold reload_step
    rw [if_pos hne]
    have hch : decide ((st.playlist_sequences.map Sequence.num) ≠
        ((sequences_of p).map Sequence.num)) = true := by
      simp
      exact fun hcon => hneq hcon.symm
    show (if decide _ = true then _ else max (_ / 2) 1) = _
    rw [hch]
    simp

/-- C4 amended witness: reloading the unchanged window `[0, 1]` with a
6-second target duration halves the freshly computed interval to 3. -/
theorem c4_amended_witness :
    (reload_step c4st ⟨false, some 6, some 0, [segX "a", segX "b"]⟩).playlist_reload_time =
      max (playlist_reload_time_calc c4st.playlist_reload_time_override c4st.live_edge
        c4st.playlist_reload_time (some 6)
        (sequences_of ⟨false, some 6, some 0, [segX "a", segX "b"]⟩) / 2) 1 :=
  ((c4_amended c4st ⟨false, some 6, some 0, [segX "a", segX "b"]⟩ (by decide)).1
    (by decide)).1

/-! ## C2 — HLS write failure handling -/

/-- Helper fact: `create_decryptor` only touches the key cache: the closed flags and
the buffer of the writer state it returns are those of its input. -/
lemma create_decryptor_preserves (fmt : String → Option String → String)
    (fk : String → Option (List Nat)) (st : HLSWriterState) (key : HLSKey) (n : Int) :
    (create_decryptor fmt fk st key n).1.closed = st.closed
    ∧ (create_decryptor fmt fk st key n).1.buffer = st.buffer
    ∧ (create_decryptor fmt fk st key n).1.bufferClosed = st.bufferClosed := by
  unfold create_decryptor
  by_cases h1 : key.method ≠ "AES-128"
  · rw [if_pos h1]
    exact ⟨rfl, rfl, rfl⟩
  · rw [if_neg h1]
    by_cases h2 : st.key_uri_override = none ∧ key.uri = none
    · rw [if_pos h2]
      exact ⟨rfl, rfl, rfl⟩
    · rw [if_neg h2]
      show ((if st.key_uri ≠ some (resolved_key_uri fmt st key) then _ else _) :
        HLSWriterState × Except DecryptorError Decryptor).1.closed = _ ∧ _
      by_cases h3 : st.key_uri ≠ some (resolved_key_uri fmt st key)
      · rw [if_pos h3]
        cases fk (resolved_key_uri fmt st key) with
        | none => exact ⟨rfl, rfl, rfl⟩
        | some kd => exact ⟨rfl, rfl, rfl⟩
      · rw [if_neg h3]
        exact ⟨rfl, rfl, rfl⟩

/-- C2 is refuted on the code: for the encrypted segment `cexSeq`, whose
AES-128 key has no URI (and no override is configured), decryptor creation
fails with `StreamError` and `HLSStreamWriter.write` then calls
`self.close()` (hls.py line 127) — the writer is closed and the pipeline
does not continue, contrary to the claim. -/
theorem c2_counterexample :
    hls_write (fun _ _ => "") (fun _ => none) (fun _ _ => []) writer_st0 cexSeq
        (Except.ok []) []
      = Except.ok (writerClose writer_st0)
    ∧ (writerClose writer_st0).closed = true
    ∧ writer_st0.closed = false :=
  ⟨rfl, rfl, rfl⟩

/-- C2 (amended): during `HLSStreamWriter.write` of an encrypted segment,
(i) a decrypt or padding-removal failure (`ValueError`) aborts only that
segment — the error is logged, no bytes for the segment reach the buffer,
and the writer is left open, so the pipeline continues; (ii) a key-fetch
or decryptor-creation failure (`StreamError`/`ValueError`) also commits no
bytes, but closes the writer rather than continuing. -/
theorem c2_amended (fmt : String → Option String → String)
    (fk : String → Option (List Nat)) (bd : List Nat → List Nat → List Nat)
    (st : HLSWriterState) (seq : Sequence) (key : HLSKey)
    (content : Except Unit (List Nat)) (chunks : List (List Nat))
    (hk : seq.segment.key = some key) (hm : key.method ≠ "NONE") :
    (∀ (st2 : HLSWriterState) (d : Decryptor) (data : List Nat),
      create_decryptor fmt fk st key seq.num = (st2, Except.ok d) →
      content = Except.ok data →
      decrypt_and_unpad bd d data = Except.error DecryptorError.valueError →
      hls_write fmt fk bd st seq content chunks = Except.ok st2
      ∧ st2.closed = st.closed ∧ st2.buffer = st.buffer)
    ∧ (∀ (st2 : HLSWriterState) (e : DecryptorError),
      create_decryptor fmt fk st key seq.num = (st2, Except.error e) →
      e ≠ DecryptorError.structError →
      hls_write fmt fk bd st seq content chunks = Except.ok (writerClose st2)
      ∧ (writerClose st2).closed = true ∧ (writerClose st2).buffer = st.buffer) := by
  have hpres := create_decryptor_preserves fmt fk st key seq.num
  constructor
  · intro st2 d data hcd hco hdu
    have h1 : st2.closed = st.closed := by
      have := hpres.1
      rw [hcd] at this
      exact this
    have h2 : st2.buffer = st.buffer := by
      have := hpres.2.1
      rw [hcd] at this
      exact this
    refine ⟨?_, h1, h2⟩
    unfold hls_write
    rw [hk]
    show (if key.method ≠ "NONE" then _ else _) = _
    rw [if_pos hm, hcd]
    show (match content with
          | Except.error _ => Except.ok st2
          | Except.ok data => match decrypt_and_unpad bd d data with
                              | Except.error _ => Except.ok st2
                              | Except.ok chunk => Except.ok (buffer_write st2 chunk)) = _
    rw [hco]
    show (match decrypt_and_unpad bd d data with
          | Except.error _ => Except.ok st2
          | Except.ok chunk => Except.ok (buffer_write st2 chunk)) = _
    rw [hdu]
  · intro st2 e hcd hse
    have hbuf : st2.buffer = st.buffer := by
      have := hpres.2.1
      rw [hcd] at this
      exact this
    refine ⟨?_, rfl, hbuf⟩
    unfold hls_write
    rw [hk]
    show (if key.method ≠ "NONE" then _ else _) = _
    rw [if_pos hm, hcd]
    cases e with
    | structError => exact absurd rfl hse
    | streamError => rfl
    | valueError => rfl

/-- The writer state with the key for URI "k" already cached. -/
def c2st : HLSWriterState := { writer_st0 with key_uri := some "k" }

/-- An encrypted segment whose key URI "k" is already cached in `c2st`. -/
def c2seq : Sequence := ⟨7, ⟨"seg7", 2, some ⟨"AES-128", some "k", none⟩, none⟩⟩

/-- C2 amended witness: decrypting a one-byte body (not block-aligned)
raises `ValueError` and drops only that segment, the writer staying open;
the missing-key-URI segment `cexSeq` closes the writer. -/
theorem c2_amended_witness :
    (hls_write (fun _ _ => "") (fun _ => none) (fun _ _ => []) c2st c2seq
        (Except.ok [1]) [] = Except.ok c2st
      ∧ c2st.closed = c2st.closed)
    ∧ hls_write (fun _ _ => "") (fun _ => none) (fun _ _ => []) writer_st0 cexSeq
        (Except.ok []) [] = Except.ok (writerClose writer_st0) := by
  constructor
  · have hcd : create_decryptor (fun _ _ => "") (fun _ => none) c2st
        ⟨"AES-128", some "k", none⟩ c2seq.num
        = (c2st, Except.ok ⟨c2st.key_data, List.replicate 8 0 ++ beBytes 8 7⟩) := rfl
    have hdu : decrypt_and_unpad (fun _ _ => []) ⟨c2st.key_data,
        List.replicate 8 0 ++ beBytes 8 7⟩ [1] = Except.error DecryptorError.valueError := rfl
    have h := (c2_amended (fun _ _ => "") (fun _ => none) (fun _ _ => [])
      c2st c2seq ⟨"AES-128", some "k", none⟩ (Except.ok [1]) [] rfl (by decide)).1
      c2st ⟨c2st.key_data, List.replicate 8 0 ++ beBytes 8 7⟩ [1] hcd rfl hdu
    exact ⟨h.1, h.2.1⟩
  · exact ((c2_amended (fun _ _ => "") (fun _ => none) (fun _ _ => [])
      writer_st0 cexSeq cexKey (Except.ok []) [] rfl (by decide)).2
      writer_st0 DecryptorError.streamError rfl (by decide)).1

/-! ## C7 — AES-128-CBC IV derivation -/

/-- Helper fact: `beBytes k n` always has exactly `k` bytes. -/
lemma beBytes_length : ∀ (k n : Nat), (beBytes k n).length = k
  | 0, _ => rfl
  | k + 1, n => by
    simp [beBytes, beBytes_length k]

/-- C7: for an encrypted segment without an explicit per-segment IV and a
media sequence number in the signed 64-bit range, the IV handed to
AES-128-CBC is the big-endian 8-byte encoding of the sequence number
left-padded with zero bytes to 16 bytes; a nonempty explicit IV of at most
16 bytes is used instead, also left-zero-padded to 16 bytes.  (Stated with
the key for the segment's key URI already cached, so no fetch happens.) -/
theorem c7_iv_derivation (fmt : String → Option String → String)
    (fk : String → Option (List Nat)) (st : HLSWriterState) (key : HLSKey)
    (u : String) (n : Int)
    (hovr : st.key_uri_override = none) (huri : key.uri = some u)
    (hcache : st.key_uri = some u) (hm : key.method = "AES-128")
    (h0 : 0 ≤ n) (h1 : n < 2 ^ 63) :
    (key.iv = none →
      create_decryptor fmt fk st key n =
        (st, Except.ok ⟨st.key_data, List.replicate 8 0 ++ beBytes 8 n.toNat⟩)
      ∧ (List.replicate 8 0 ++ beBytes 8 n.toNat).length = 16)
    ∧ (∀ iv0 : List Nat, key.iv = some iv0 → iv0 ≠ [] → iv0.length ≤ 16 →
      create_decryptor fmt fk st key n =
        (st, Except.ok ⟨st.key_data, List.replicate (16 - iv0.length) 0 ++ iv0⟩)
      ∧ (List.replicate (16 - iv0.length) 0 ++ iv0).length = 16) := by
  have hlen8 : (beBytes 8 n.toNat).length = 8 := beBytes_length 8 n.toNat
  have hres : resolved_key_uri fmt st key = u := by
    unfold resolved_key_uri
    rw [hovr, huri]
    rfl
  have hcachehit : ¬ st.key_uri ≠ some (resolved_key_uri fmt st key) := by
    rw [hres, hcache]
    exact fun hcon => hcon rfl
  have hshape : create_decryptor fmt fk st key n = (st, mkDecryptor st key n) := by
    unfold create_decryptor
    rw [if_neg (by rw [hm]; exact fun hcon => hcon rfl),
        if_neg (fun hcon => by rw [hovr, huri] at hcon; exact Option.noConfusion hcon.2)]
    show (if st.key_uri ≠ some (resolved_key_uri fmt st key) then _ else _) = _
    rw [if_neg hcachehit]
  have hiv : num_to_iv n =
      some (List.replicate 8 0 ++ beBytes 8 n.toNat) := by
    unfold num_to_iv
    rw [if_pos ⟨le_trans (by norm_num) h0, h1⟩]
    have : n.emod (2 ^ 64) = n :=
      Int.emod_eq_of_lt h0 (lt_trans h1 (by norm_num))
    rw [this]
  constructor
  · intro hnone
    have hmk : mkDecryptor st key n =
        Except.ok ⟨st.key_data, List.replicate 8 0 ++ beBytes 8 n.toNat⟩ := by
      unfold mkDecryptor
      rw [hnone, hiv]
      show Except.ok (⟨st.key_data, List.replicate (16 - (List.replicate 8 0 ++
        beBytes 8 n.toNat).length) 0 ++ (List.replicate 8 0 ++ beBytes 8 n.toNat)⟩ :
        Decryptor) = _
      rw [List.length_append, List.length_replicate, hlen8]
      rfl
    rw [hshape, hmk]
    refine ⟨rfl, ?_⟩
    rw [List.length_append, List.length_replicate, hlen8]
  · intro iv0 hsome hne hle
    have hmk : mkDecryptor st key n =
        Except.ok ⟨st.key_data, List.replicate (16 - iv0.length) 0 ++ iv0⟩ := by
      unfold mkDecryptor
      rw [hsome]
      show (match (if iv0 = [] then num_to_iv n else some iv0) with
            | none => Except.error DecryptorError.structError
            | some l => Except.ok (⟨st.key_data, List.replicate (16 - l.length) 0 ++ l⟩ :
                Decryptor)) = _
      rw [if_neg hne]
    rw [hshape, hmk]
    refine ⟨rfl, ?_⟩
    rw [List.length_append, List.length_replicate]
    omega

/-- C7 witness at sequence number 5 (derived IV) and at an explicit
9-byte IV. -/
theorem c7_iv_derivation_witness :
    create_decryptor (fun _ _ => "") (fun _ => none) c2st
        ⟨"AES-128", some "k", none⟩ 5
      = (c2st, Except.ok ⟨c2st.key_data, List.replicate 8 0 ++ beBytes 8 (5 : Int).toNat⟩)
    ∧ create_decryptor (fun _ _ => "") (fun _ => none) c2st
        ⟨"AES-128", some "k", some [1, 2, 3, 4, 5, 6, 7, 8, 9]⟩ 5
      = (c2st, Except.ok ⟨c2st.key_data,
          List.replicate (16 - ([1, 2, 3, 4, 5, 6, 7, 8, 9] : List Nat).length) 0
            ++ [1, 2, 3, 4, 5, 6, 7, 8, 9]⟩) :=
  ⟨((c7_iv_derivation (fun _ _ => "") (fun _ => none) c2st
      ⟨"AES-128", some "k", none⟩ "k" 5 rfl rfl rfl rfl (by norm_num) (by norm_num)).1
      rfl).1,
   ((c7_iv_derivation (fun _ _ => "") (fun _ => none) c2st
      ⟨"AES-128", some "k", some [1, 2, 3, 4, 5, 6, 7, 8, 9]⟩ "k" 5 rfl rfl rfl rfl
      (by norm_num) (by norm_num)).2 [1, 2, 3, 4, 5, 6, 7, 8, 9] rfl
      (by decide) (by decide)).1⟩

/-! ## C8 — relative byte-range bookkeeping -/

/-- Running `create_request_params` over requests on one URI that carry
only a length reproduces `relative_ranges`, starting from the current
running offset for that URI. -/
lemma run_request_params_relative (u : String) :
    ∀ (Ls : List Int) (st : HLSWriterState),
      run_request_params st (mk_relative_requests u Ls)
        = (relative_ranges (st.byterange_offsets u) Ls).map some := by
  intro Ls
  induction Ls with
  | nil => intro st; rfl
  | cons L rest ih =>
    intro st
    show some (st.byterange_offsets u, st.byterange_offsets u + max (L - 1) 0) ::
        run_request_params { st with byterange_offsets :=
          fun x => if x = u then st.byterange_offsets u + max (L - 1) 0 + 1
                   else st.byterange_offsets x }
          (mk_relative_requests u rest)
      = (relative_ranges (st.byterange_offsets u) (L :: rest)).map some
    rw [ih]
    show some (st.byterange_offsets u, st.byterange_offsets u + max (L - 1) 0) ::
        (relative_ranges (if u = u then st.byterange_offsets u + max (L - 1) 0 + 1
          else st.byterange_offsets u) rest).map some
      = (relative_ranges (st.byterange_offsets u) (L :: rest)).map some
    rw [if_pos rfl]
    rfl

/-- The start of each range produced by `relative_ranges` is the initial
offset plus the sum of `max L 1` over the preceding lengths. -/
lemma relative_ranges_fst :
    ∀ (Ls : List Int) (off : Int),
      (relative_ranges off Ls).map Prod.fst
        = (List.range Ls.length).map
            (fun k => off + ((Ls.take k).map (fun L => max L 1)).sum) := by
  intro Ls
  induction Ls with
  | nil => intro off; rfl
  | cons L rest ih =>
    intro off
    have hstep : max (L - 1) 0 + 1 = max L 1 := by
      rw [← max_add_add_right]
      norm_num
    unfold relative_ranges
    rw [List.map_cons, List.length_cons, List.range_succ_eq_map,
        List.map_cons, List.map_map, ih]
    congr 1
    · simp
    · apply List.map_congr_left
      intro k _
      show off + max (L - 1) 0 + 1 + ((rest.take k).map (fun L => max L 1)).sum
          = off + (((L :: rest).take (Nat.succ k)).map (fun L => max L 1)).sum
      rw [List.take_succ_cons, List.map_cons, List.sum_cons, ← hstep]
      ring

/-- Consecutive ranges produced by `relative_ranges` are contiguous: each
start is one past the previous end. -/
lemma relative_ranges_chain :
    ∀ (Ls : List Int) (off : Int),
      List.Chain' (fun p q : Int × Int => q.1 = p.2 + 1) (relative_ranges off Ls) := by
  intro Ls
  induction Ls with
  | nil => intro off; exact List.chain'_nil
  | cons L rest ih =>
    intro off
    unfold relative_ranges
    rw [List.chain'_cons']
    refine ⟨?_, ih _⟩
    intro q hq
    cases rest with
    | nil => exact absurd hq (by simp [relative_ranges])
    | cons L2 rest2 =>
      have h2 : (off + max (L - 1) 0 + 1,
          off + max (L - 1) 0 + 1 + max (L2 - 1) 0) = q := by
        simpa [relative_ranges] using hq
      rw [← h2]

/-- C8 is refuted on the code: two relative ranges with lengths 0 and 5 on
the same URI produce `bytes=0-0` then `bytes=1-5`: the second request
starts at 1, not at the sum of the preceding lengths (0), because a
zero-length range still advances the running offset to its end plus 1. -/
theorem c8_counterexample :
    run_request_params writer_st0 (mk_relative_requests "u" [0, 5])
      = [some (0, 0), some (1, 5)]
    ∧ ((1 : Int) ≠ (([0, 5] : List Int).take 1).sum) := by
  refine ⟨rfl, by decide⟩

/-- C8 (amended): for requests on one URI whose byte-ranges carry only a
length, the k-th `Range` starts at the running offset plus the sum of
`max L 1` over the preceding lengths (which equals the sum of the lengths
whenever they are all positive) and ends at `start + max (L - 1) 0`;
consecutive relative ranges are contiguous — each start is one past the
previous end — and a byte-range with an explicit offset starts at exactly
that offset, resetting the running position. -/
theorem c8_amended :
    (∀ (u : String) (Ls : List Int),
      run_request_params writer_st0 (mk_relative_requests u Ls)
        = (relative_ranges 0 Ls).map some)
    ∧ (∀ (Ls : List Int) (off : Int),
      (relative_ranges off Ls).map Prod.fst
        = (List.range Ls.length).map
            (fun k => off + ((Ls.take k).map (fun L => max L 1)).sum))
    ∧ (∀ (Ls : List Int) (off : Int),
      List.Chain' (fun p q : Int × Int => q.1 = p.2 + 1) (relative_ranges off Ls))
    ∧ (∀ (st : HLSWriterState) (seq : Sequence) (br : HLSByteRange) (o : Int),
      seq.segment.byterange = some br → br.offset = some o →
      (create_request_params st seq).2 = some (o, o + max (br.range - 1) 0)) := by
  refine ⟨fun u Ls => run_request_params_relative u Ls writer_st0,
          relative_ranges_fst, relative_ranges_chain, ?_⟩
  intro st seq br o hbr ho
  unfold create_request_params
  rw [hbr]
  show (_, some ((match br.offset with
        | some o => o
        | none => st.byterange_offsets seq.segment.uri),
      (match br.offset with
        | some o => o
        | none => st.byterange_offsets seq.segment.uri) + max (br.range - 1) 0)).2 = _
  rw [ho]

/-- C8 amended witness: an explicit offset of 100 with length 4 produces
the range `bytes=100-103` regardless of the running offset. -/
theorem c8_amended_witness :
    (create_request_params writer_st0
        ⟨0, ⟨"u", 2, none, some ⟨4, some 100⟩⟩⟩).2
      = some (100, 100 + max ((4 : Int) - 1) 0) :=
  c8_amended.2.2.2 writer_st0 ⟨0, ⟨"u", 2, none, some ⟨4, some 100⟩⟩⟩
    ⟨4, some 100⟩ 100 rfl rfl

/-! ## C1 — writer commits in submission order -/

/-- The run loop emits nothing once the queue index passes the end. -/
lemma writer_run_loop_done (n : Nat) (ct : Nat → Nat) :
    ∀ (fuel i t : Nat), n ≤ i → writer_run_loop n ct fuel i t = [] := by
  intro fuel
  cases fuel with
  | zero => intro i t _; rfl
  | succ fuel => intro i t h; show (if n ≤ i then _ else _) = _; rw [if_pos h]

/-- Helper fact: `max_ct` bounds every completion time among the first `n` futures. -/
lemma max_ct_bound (ct : Nat → Nat) :
    ∀ (n j : Nat), j < n → ct j ≤ max_ct n ct := by
  intro n
  induction n with
  | zero => intro j h; exact absurd h (Nat.not_lt_zero j)
  | succ n ih =>
    intro j h
    rcases Nat.lt_succ_iff_lt_or_eq.mp h with h2 | h2
    · exact le_trans (ih j h2) (le_max_left _ _)
    · rw [h2]
      exact le_max_right _ _

/-- With fuel covering the remaining commits plus the remaining waiting
time, the run loop commits exactly the rest of the queue, in order. -/
lemma writer_run_loop_complete (n : Nat) (ct : Nat → Nat) (T : Nat)
    (hT : ∀ j, j < n → ct j ≤ T) :
    ∀ (fuel i t : Nat), (n - i) + (T - t) ≤ fuel →
      writer_run_loop n ct fuel i t = List.range' i (n - i) := by
  intro fuel
  induction fuel with
  | zero =>
    intro i t h
    have hni : n - i = 0 := by omega
    rw [hni, writer_run_loop_done n ct 0 i t (by omega)]
    rfl
  | succ fuel ih =>
    intro i t h
    by_cases hi : n ≤ i
    · rw [writer_run_loop_done n ct _ i t hi, Nat.sub_eq_zero_of_le hi]
      rfl
    · push_neg at hi
      show (if n ≤ i then [] else if ct i ≤ t then
          i :: writer_run_loop n ct fuel (i + 1) t
        else writer_run_loop n ct fuel i (t + 1)) = _
      rw [if_neg (not_le.mpr hi)]
      by_cases hc : ct i ≤ t
      · rw [if_pos hc, ih (i + 1) t (by omega)]
        have hsplit : n - i = (n - (i + 1)) + 1 := by omega
        rw [hsplit]
        rfl
      · rw [if_neg hc]
        have hlt : t < ct i := not_le.mp hc
        have hTi : ct i ≤ T := hT i hi
        exact ih i (t + 1) (by omega)

/-- For every completion-time assignment, the writer commits all `n`
futures in submission order. -/
lemma writer_commits_eq (n : Nat) (ct : Nat → Nat) :
    writer_commits n ct = List.range n := by
  unfold writer_commits
  rw [writer_run_loop_complete n ct (max_ct n ct) (max_ct_bound ct n) _ 0 0 (by omega)]
  rw [Nat.sub_zero, List.range_eq_range']

/-- C1: for every queue of `n` submitted segments and every order in which
their fetch futures complete (`ct j` is the completion time of future
`j`), the run loop commits the futures exactly in submission order; hence,
for any strictly increasing sequence-number assignment, the committed
sequence numbers are strictly ascending — also after dropping the futures
whose result is `None` (failed fetches, which `write` skips). -/
theorem c1_commit_order (n : Nat) (ct : Nat → Nat) (sn : Nat → Int)
    (res : Nat → Option (List Nat)) (hsn : StrictMono sn) :
    writer_commits n ct = List.range n
    ∧ List.Sorted (· < ·) ((writer_commits n ct).map sn)
    ∧ List.Sorted (· < ·)
        (((writer_commits n ct).filter (fun i => (res i).isSome)).map sn) := by
  have h := writer_commits_eq n ct
  have hpw : List.Pairwise (· < ·) (writer_commits n ct) := by
    rw [h]
    exact List.pairwise_lt_range n
  refine ⟨h, hpw.map _ (fun _ _ hab => hsn hab), ?_⟩
  exact (List.Pairwise.sublist (List.filter_sublist _) hpw).map _ (fun _ _ hab => hsn hab)

/-- C1 witness: three futures completing in reverse order (future 0 last)
are still committed as 0, 1, 2. -/
theorem c1_commit_order_witness :
    writer_commits 3 (fun i => 5 - i) = List.range 3
    ∧ List.Sorted (· < ·) ((writer_commits 3 (fun i => 5 - i)).map (fun i => (i : Int))) :=
  have h := c1_commit_order 3 (fun i => 5 - i) (fun i => (i : Int)) (fun _ => some [])
    (fun _ _ hab => Int.ofNat_lt.mpr hab)
  ⟨h.1, h.2.1⟩

/-! ## C6 — no duplicate emission across overlapping reload windows -/

/-- Behaviour of one window pass: the yields are sorted, all at or above
the incoming cursor and drawn from the window; the cursor never moves
backwards, stays put when nothing is yielded, and — unless the generator
returned — ends up strictly above every yield. -/
lemma emit_window_spec (dl : Option Rat) (pe : Option Int) :
    ∀ (l : List Sequence) (ps : Int) (td : Rat),
      (∀ x ∈ (emit_window dl pe l ps td).out, ps ≤ x ∧ x ∈ l.map Sequence.num)
      ∧ List.Sorted (· < ·) (emit_window dl pe l ps td).out
      ∧ ps ≤ (emit_window dl pe l ps td).playlist_sequence
      ∧ ((emit_window dl pe l ps td).out = [] →
          (emit_window dl pe l ps td).playlist_sequence = ps)
      ∧ ((emit_window dl pe l ps td).ended = false →
          ∀ x ∈ (emit_window dl pe l ps td).out,
            x < (emit_window dl pe l ps td).playlist_sequence) := by
  intro l
  induction l with
  | nil =>
    intro ps td
    exact ⟨fun x hx => absurd hx (List.not_mem_nil x), List.sorted_nil, le_refl ps,
      fun _ => rfl, fun _ x hx => absurd hx (List.not_mem_nil x)⟩
  | cons s rest ih =>
    intro ps td
    by_cases hvalid : ps ≤ s.num
    · by_cases hdl : optRatTruthy dl = true ∧ dl.getD 0 ≤ td + s.segment.duration
      · have heq : emit_window dl pe (s :: rest) ps td =
            ⟨[s.num], ps, td + s.segment.duration, true⟩ := by
          show (if ps ≤ s.num then _ else _) = _
          rw [if_pos hvalid]
          show (if optRatTruthy dl = true ∧ dl.getD 0 ≤ td + s.segment.duration
              then _ else _) = _
          rw [if_pos hdl]
        rw [heq]
        refine ⟨?_, List.sorted_singleton _, le_refl ps,
          fun hcon => absurd hcon (List.cons_ne_nil _ _),
          fun hcon => Bool.noConfusion hcon⟩
        intro x hx
        have hxs := List.mem_singleton.mp hx
        subst hxs
        exact ⟨hvalid, by simp⟩
      · by_cases hse : stream_end_check pe s.num = true
        · have heq : emit_window dl pe (s :: rest) ps td =
              ⟨[s.num], ps, td + s.segment.duration, true⟩ := by
            show (if ps ≤ s.num then _ else _) = _
            rw [if_pos hvalid]
            show (if optRatTruthy dl = true ∧ dl.getD 0 ≤ td + s.segment.duration
                then _ else _) = _
            rw [if_neg hdl]
            show (if stream_end_check pe s.num = true then _ else _) = _
            rw [if_pos hse]
          rw [heq]
          refine ⟨?_, List.sorted_singleton _, le_refl ps,
            fun hcon => absurd hcon (List.cons_ne_nil _ _),
            fun hcon => Bool.noConfusion hcon⟩
          intro x hx
          have hxs := List.mem_singleton.mp hx
          subst hxs
          exact ⟨hvalid, by simp⟩
        · obtain ⟨ih1, ih2, ih3, ih4, ih5⟩ := ih (s.num + 1) (td + s.segment.duration)
          have heq : emit_window dl pe (s :: rest) ps td =
              ⟨s.num :: (emit_window dl pe rest (s.num + 1) (td + s.segment.duration)).out,
               (emit_window dl pe rest (s.num + 1) (td + s.segment.duration)).playlist_sequence,
               (emit_window dl pe rest (s.num + 1) (td + s.segment.duration)).total_duration,
               (emit_window dl pe rest (s.num + 1) (td + s.segment.duration)).ended⟩ := by
            show (if ps ≤ s.num then _ else _) = _
            rw [if_pos hvalid]
            show (if optRatTruthy dl = true ∧ dl.getD 0 ≤ td + s.segment.duration
                then _ else _) = _
            rw [if_neg hdl]
            show (if stream_end_check pe s.num = true then _ else _) = _
            rw [if_neg hse]
          rw [heq]
          dsimp only
          refine ⟨?_, ?_, ?_, fun hcon => absurd hcon (List.cons_ne_nil _ _), ?_⟩
          · intro x hx
            rcases List.mem_cons.mp hx with hxs | hx2
            · subst hxs
              exact ⟨hvalid, by simp⟩
            · obtain ⟨hge, hmem⟩ := ih1 x hx2
              exact ⟨by omega, by simp [hmem]⟩
          · refine List.sorted_cons.mpr ⟨?_, ih2⟩
            intro b hb
            have := (ih1 b hb).1
            omega
          · have := ih3
            omega
          · intro hend x hx
            rcases List.mem_cons.mp hx with hxs | hx2
            · subst hxs
              have := ih3
              omega
            · exact ih5 hend x hx2
    · have heq : emit_window dl pe (s :: rest) ps td = emit_window dl pe rest ps td := by
        show (if ps ≤ s.num then _ else _) = _
        rw [if_neg hvalid]
      rw [heq]
      obtain ⟨ih1, ih2, ih3, ih4, ih5⟩ := ih ps td
      refine ⟨?_, ih2, ih3, ih4, ih5⟩
      intro x hx
      obtain ⟨hge, hmem⟩ := ih1 x hx
      exact ⟨hge, by simp [hmem]⟩

/-- All possible values of the cursor after `process_sequences`: unchanged,
or (when it was unset) the number of some sequence in the new window. -/
lemma process_sequences_ps (st : HLSWorkerState) (e : Bool) (seqs : List Sequence) :
    (process_sequences st e seqs).playlist_sequence = st.playlist_sequence
    ∨ (st.playlist_sequence < 0 ∧
       ∃ s ∈ seqs, (process_sequences st e seqs).playlist_sequence = s.num) := by
  have hps : (process_sequences st e seqs).playlist_sequence =
      (if st.playlist_sequence < 0 then
        if (if e then
              (match seqs.getLast? with
               | some sLast => some sLast.num
               | none => st.playlist_end)
            else st.playlist_end) = none ∧ st.hls_live_restart = false then
          match (seqs.drop (seqs.length -
              min seqs.length (max st.live_edge 1).toNat)).head? with
          | some edge_sequence => edge_sequence.num
          | none => st.playlist_sequence
        else
          match seqs.head? with
          | some first_sequence => first_sequence.num
          | none => st.playlist_sequence
      else st.playlist_sequence) := rfl
  rw [hps]
  by_cases h0 : st.playlist_sequence < 0
  · rw [if_pos h0]
    by_cases h1 : ((if e = true then
          (match seqs.getLast? with
           | some sLast => some sLast.num
           | none => st.playlist_end)
        else st.playlist_end) = none ∧ st.hls_live_restart = false)
    case pos =>
      rw [if_pos h1]
      cases hh : ((seqs.drop (seqs.length -
          min seqs.length (max st.live_edge 1).toNat)).head?) with
      | none => exact Or.inl rfl
      | some es =>
        refine Or.inr ⟨h0, es, ?_, rfl⟩
        exact List.mem_of_mem_drop (List.mem_of_mem_head? hh)
    case neg =>
      rw [if_neg h1]
      cases hh : seqs.head? with
      | none => exact Or.inl rfl
      | some s0 =>
        exact Or.inr ⟨h0, s0, List.mem_of_mem_head? hh, rfl⟩
  · rw [if_neg h0]
    exact Or.inl rfl

/-- When every sequence number of the new window is nonnegative,
`process_sequences` never moves the cursor backwards. -/
lemma process_sequences_ps_mono (st : HLSWorkerState) (e : Bool)
    (seqs : List Sequence) (hp : ∀ s ∈ seqs, 0 ≤ s.num) :
    st.playlist_sequence ≤ (process_sequences st e seqs).playlist_sequence := by
  rcases process_sequences_ps st e seqs with h | ⟨hneg, s, hs, heq⟩
  · exact le_of_eq h.symm
  · rw [heq]
    have := hp s hs
    omega

/-- When every sequence number of the reloaded window is nonnegative, a
reload never moves the cursor backwards. -/
lemma reload_step_ps_mono (st : HLSWorkerState) (p : HLSPlaylist)
    (hp : ∀ s ∈ sequences_of p, 0 ≤ s.num) :
    st.playlist_sequence ≤ (reload_step st p).playlist_sequence := by
  unfold reload_step
  dsimp only
  split_ifs with hne
  · exact process_sequences_ps_mono _ p.is_endlist (sequences_of p) hp
  · exact le_refl _

/-- Across any run of `iter_segments` (initial window plus reload
outcomes), with all sequence numbers nonnegative, the yields are strictly
increasing and never fall below the initial cursor. -/
lemma iter_segments_run_spec :
    ∀ (reloads : List HLSPlaylist) (st : HLSWorkerState) (td : Rat),
      (∀ s ∈ st.playlist_sequences, 0 ≤ s.num) →
      (∀ p ∈ reloads, ∀ s ∈ sequences_of p, 0 ≤ s.num) →
      List.Sorted (· < ·) (iter_segments_run st td reloads).1
      ∧ ∀ x ∈ (iter_segments_run st td reloads).1,
          st.playlist_sequence ≤ x ∧ 0 ≤ x := by
  intro reloads
  induction reloads with
  | nil =>
    intro st td hw _
    obtain ⟨e1, e2, _, _, _⟩ := emit_window_spec st.duration_limit st.playlist_end
      st.playlist_sequences st.playlist_sequence td
    have hout : (iter_segments_run st td []).1 =
        (emit_window st.duration_limit st.playlist_end st.playlist_sequences
          st.playlist_sequence td).out := by
      unfold iter_segments_run
      dsimp only
      split_ifs <;> rfl
    rw [hout]
    refine ⟨e2, ?_⟩
    intro x hx
    obtain ⟨hge, hmem⟩ := e1 x hx
    obtain ⟨s, hs, hsx⟩ := List.mem_map.mp hmem
    have := hw s hs
    exact ⟨hge, by omega⟩
  | cons p rest ih =>
    intro st td hw hr
    obtain ⟨e1, e2, e3, _, e5⟩ := emit_window_spec st.duration_limit st.playlist_end
      st.playlist_sequences st.playlist_sequence td
    have hnonneg : ∀ x ∈ (emit_window st.duration_limit st.playlist_end
        st.playlist_sequences st.playlist_sequence td).out, 0 ≤ x := by
      intro x hx
      obtain ⟨s, hs, hsx⟩ := List.mem_map.mp (e1 x hx).2
      have := hw s hs
      omega
    by_cases hend : (emit_window st.duration_limit st.playlist_end
        st.playlist_sequences st.playlist_sequence td).ended = true
    · have hout : (iter_segments_run st td (p :: rest)).1 =
          (emit_window st.duration_limit st.playlist_end st.playlist_sequences
            st.playlist_sequence td).out := by
        unfold iter_segments_run
        dsimp only
        rw [if_pos hend]
      rw [hout]
      exact ⟨e2, fun x hx => ⟨(e1 x hx).1, hnonneg x hx⟩⟩
    · have hendf : (emit_window st.duration_limit st.playlist_end
          st.playlist_sequences st.playlist_sequence td).ended = false := by
        revert hend
        cases (emit_window st.duration_limit st.playlist_end st.playlist_sequences
          st.playlist_sequence td).ended <;> simp
      have hout : (iter_segments_run st td (p :: rest)).1 =
          (emit_window st.duration_limit st.playlist_end st.playlist_sequences
            st.playlist_sequence td).out ++
          (iter_segments_run
            (reload_step { st with playlist_sequence :=
              (emit_window st.duration_limit st.playlist_end st.playlist_sequences
                st.playlist_sequence td).playlist_sequence } p)
            (emit_window st.duration_limit st.playlist_end st.playlist_sequences
              st.playlist_sequence td).total_duration rest).1 := by
        conv_lhs => rw [iter_segments_run]
        dsimp only
        rw [if_neg hend]
      have hw2 : ∀ s ∈ (reload_step { st with playlist_sequence :=
          (emit_window st.duration_limit st.playlist_end st.playlist_sequences
            st.playlist_sequence td).playlist_sequence } p).playlist_sequences,
          0 ≤ s.num := by
        unfold reload_step
        dsimp only
        split_ifs with hne
        · exact fun s hs => hr p (List.mem_cons_self p rest) s hs
        · exact fun s hs => hw s hs
      obtain ⟨s1, s2⟩ := ih (reload_step { st with playlist_sequence :=
          (emit_window st.duration_limit st.playlist_end st.playlist_sequences
            st.playlist_sequence td).playlist_sequence } p)
        (emit_window st.duration_limit st.playlist_end st.playlist_sequences
          st.playlist_sequence td).total_duration
        hw2 (fun q hq => hr q (List.mem_cons_of_mem p hq))
      have hmono : (emit_window st.duration_limit st.playlist_end st.playlist_sequences
          st.playlist_sequence td).playlist_sequence ≤
          (reload_step { st with playlist_sequence :=
            (emit_window st.duration_limit st.playlist_end st.playlist_sequences
              st.playlist_sequence td).playlist_sequence } p).playlist_sequence :=
        reload_step_ps_mono _ p (hr p (List.mem_cons_self p rest))
      rw [hout]
      constructor
      · refine List.pairwise_append.mpr ⟨e2, s1, ?_⟩
        intro a ha b hb
        have ha2 := e5 hendf a ha
        have hb2 := (s2 b hb).1
        omega
      · intro x hx
        rcases List.mem_append.mp hx with hx1 | hx2
        · exact ⟨(e1 x hx1).1, hnonneg x hx1⟩
        · obtain ⟨hge, hge0⟩ := s2 x hx2
          have := e3
          refine ⟨by omega, hge0⟩

/-- C6: the live window `[0, 1]` reloaded to the overlapping ended window
`[1, 2]` yields 0, 1, 2 — segment 1 exactly once — then end-of-stream; and
in general (all sequence numbers nonnegative) a run of `iter_segments`
never yields a sequence number twice, because the yields are strictly
increasing across reloads. -/
theorem c6_no_duplicate_emission :
    (iter_segments_run
        (reload_step (init_worker_state 3 false ReloadTimeOverride.default none) livePl01)
        0 [endPl12] = ([0, 1, 2], true)
      ∧ (iter_segments_run
          (reload_step (init_worker_state 3 false ReloadTimeOverride.default none) livePl01)
          0 [endPl12]).1.count 1 = 1)
    ∧ (∀ (reloads : List HLSPlaylist) (st : HLSWorkerState) (td : Rat),
        (∀ s ∈ st.playlist_sequences, 0 ≤ s.num) →
        (∀ p ∈ reloads, ∀ s ∈ sequences_of p, 0 ≤ s.num) →
        (iter_segments_run st td reloads).1.Nodup) := by
  refine ⟨⟨by decide, by decide⟩, ?_⟩
  intro reloads st td h1 h2
  exact ((iter_segments_run_spec reloads st td h1 h2).1).nodup

/-- C6 witness: the no-duplication branch applied to the overlapping
window scenario itself. -/
theorem c6_no_duplicate_emission_witness :
    (iter_segments_run
      (reload_step (init_worker_state 3 false ReloadTimeOverride.default none) livePl01)
      0 [endPl12]).1.Nodup :=
  c6_no_duplicate_emission.2 [endPl12]
    (reload_step (init_worker_state 3 false ReloadTimeOverride.default none) livePl01)
    0 (by decide) (by decide)

end Streamlink
